import Mathlib

/-!
# Verification of the `providers` core of codel

A shallow embedding, in Lean 4, of `src/backend/providers/providers.go`
together with the `database.Task` record of `src/backend/database/models.go`.
Machine-level details are modelled as follows:

* `sql.NullString` / `sql.NullInt64` / `sql.NullTime` become Lean structures
  carrying the wrapped value and the `Valid` flag; the Go zero value has
  `Valid = false` and an empty payload.  The timestamp inside `sql.NullTime`
  is never read or written by the embedded code, so only the flag is kept.
* Go maps of type `map[string]string` become association lists; a `nil` map
  (which `encoding/json` serializes as `null`) is distinguished from an empty
  one by wrapping the list in `Option`.
* `encoding/json` is modelled by an executable JSON value type, a fuel-based
  parser and a serializer (which sorts object keys, as Go's encoder does for
  maps).  Decoding into the concrete Go structs (`Call`, `AskArgs`) is
  modelled field by field with Go's last-field-wins and
  unknown-fields-ignored behaviour.
* Functions returning `(T, error)` in Go become `Except`-valued functions;
  functions returning a nullable pointer become `Option`-valued ones.
-/

namespace Providers

/-- Propositional equality on `Except` results is decidable when it is on
both components; used to evaluate the embedding on concrete inputs. -/
instance {ε α : Type} [DecidableEq ε] [DecidableEq α] : DecidableEq (Except ε α)
  | .error a, .error b => decidable_of_iff (a = b) (by simp)
  | .error _, .ok _ => isFalse (fun h => Except.noConfusion h)
  | .ok _, .error _ => isFalse (fun h => Except.noConfusion h)
  | .ok a, .ok b => decidable_of_iff (a = b) (by simp)

/-- Model of Go `database/sql.NullString`: a string plus a validity flag.
The Go zero value is `⟨"", false⟩`. -/
structure NullString where
  String : String
  Valid : Bool
deriving DecidableEq, Repr

/-- The Go zero value of `sql.NullString`. -/
def NullString.zero : NullString := ⟨"", false⟩

/-- Model of Go `database/sql.NullInt64`. -/
structure NullInt64 where
  Int64 : Int
  Valid : Bool
deriving DecidableEq, Repr

/-- The Go zero value of `sql.NullInt64`. -/
def NullInt64.zero : NullInt64 := ⟨0, false⟩

/-- Model of Go `database/sql.NullTime`.  The embedded code never reads or
writes the time value itself, so only the validity flag is modelled. -/
structure NullTime where
  Valid : Bool
deriving DecidableEq, Repr

/-- The Go zero value of `sql.NullTime`. -/
def NullTime.zero : NullTime := ⟨false⟩

/-- Model of `database.Task` from `src/backend/database/models.go`.
Field `Type` of the Go struct is renamed `type` because `Type` is reserved
in Lean. -/
structure Task where
  ID : Int
  CreatedAt : NullTime
  UpdatedAt : NullTime
  type : NullString
  Status : NullString
  Args : NullString
  Results : NullString
  Message : NullString
  FlowID : NullInt64
  ToolCallID : NullString
deriving DecidableEq, Repr

/-- The Go zero value of `database.Task` (what `database.Task{...}` composite
literals start from). -/
def Task.zero : Task :=
  { ID := 0, CreatedAt := NullTime.zero, UpdatedAt := NullTime.zero
    type := NullString.zero, Status := NullString.zero, Args := NullString.zero
    Results := NullString.zero, Message := NullString.zero
    FlowID := NullInt64.zero, ToolCallID := NullString.zero }

/-- Modelled from the spec: `database.StringToNullString` lives in the
`database` package outside the provided sources; the spec treats every field
set through it as present, so it wraps the string with `Valid = true`. -/
def StringToNullString (s : String) : NullString := ⟨s, true⟩

/-! ## Conversation turns (model of the used parts of `langchaingo`) -/

/-- The `langchaingo` chat-role string constant `schema.ChatMessageTypeSystem`. -/
def ChatMessageTypeSystem : String := "system"

/-- The `langchaingo` chat-role string constant `schema.ChatMessageTypeHuman`. -/
def ChatMessageTypeHuman : String := "human"

/-- The `langchaingo` chat-role string constant `schema.ChatMessageTypeAI`. -/
def ChatMessageTypeAI : String := "ai"

/-- The `langchaingo` chat-role string constant `schema.ChatMessageTypeTool`. -/
def ChatMessageTypeTool : String := "tool"

/-- Model of the `llms.ContentPart` interface, restricted to the three
implementations the embedded code constructs: `llms.TextPart`,
`llms.ToolCall` (with its `schema.FunctionCall` payload inlined) and
`llms.ToolCallResponse`. -/
inductive ContentPart where
  | textPart (text : String)
  | toolCall (id : String) (name : String) (arguments : String) (callType : String)
  | toolCallResponse (toolCallID : String) (name : String) (content : String)
deriving DecidableEq, Repr

/-- Model of `llms.MessageContent`: a role plus content parts. -/
structure MessageContent where
  Role : String
  Parts : List ContentPart
deriving DecidableEq, Repr

/-- The body of the `for` loop of `tasksToMessages` (providers.go:113-159):
the three independent `if` statements of the source become three independent
conditional appends, in source order. -/
def tasksToMessagesStep (prompt : String) (messages : List MessageContent)
    (task : Task) : List MessageContent :=
  let messages :=
    if task.type.String = "input" then
      messages ++ [⟨ChatMessageTypeHuman, [ContentPart.textPart prompt]⟩]
    else messages
  let messages :=
    if task.ToolCallID.String ≠ "" then
      messages ++
        [⟨ChatMessageTypeAI,
          [ContentPart.toolCall task.ToolCallID.String task.type.String
            task.Args.String "function"]⟩,
         ⟨ChatMessageTypeTool,
          [ContentPart.toolCallResponse task.ToolCallID.String
            task.type.String task.Results.String]⟩]
    else messages
  let messages :=
    if task.type.String = "ask" ∧ task.ToolCallID.String = "" then
      messages ++ [⟨ChatMessageTypeAI, [ContentPart.textPart task.Message.String]⟩]
    else messages
  messages

/-- Embedding of `tasksToMessages` (providers.go:104-162).  The Go `for` loop
appending to `messages` becomes a left fold of `tasksToMessagesStep` over the
task list, started at the singleton system message. -/
def tasksToMessages (tasks : List Task) (prompt : String) : List MessageContent :=
  tasks.foldl (tasksToMessagesStep prompt)
    [⟨ChatMessageTypeSystem, [ContentPart.textPart prompt]⟩]

/-! ## JSON (model of the used parts of Go `encoding/json`) -/

/-- JSON values.  Numbers keep only their integer part: the embedded decoders
never inspect a numeric value (numbers are either rejected by a typed field
or ignored as unknown fields), only whether the syntax is a number. -/
inductive Json where
  | null
  | bool (b : Bool)
  | num (intPart : Int)
  | str (s : String)
  | arr (elems : List Json)
  | obj (fields : List (String × Json))

/-- Is `c` an ASCII decimal digit? -/
def isJsonDigit (c : Char) : Bool := 48 ≤ c.toNat && c.toNat ≤ 57

/-- Decimal value of a digit string. -/
def digitsToNat (ds : List Char) : Nat :=
  ds.foldl (fun n c => n * 10 + (c.toNat - 48)) 0

/-- Value of one hex digit, if any. -/
def hexVal (c : Char) : Option Nat :=
  if 48 ≤ c.toNat && c.toNat ≤ 57 then some (c.toNat - 48)
  else if 97 ≤ c.toNat && c.toNat ≤ 102 then some (c.toNat - 87)
  else if 65 ≤ c.toNat && c.toNat ≤ 70 then some (c.toNat - 55)
  else none

/-- Skip JSON insignificant whitespace. -/
def skipWs : List Char → List Char
  | c :: rest =>
    if c = ' ' ∨ c = '\t' ∨ c = '\n' ∨ c = '\r' then skipWs rest else c :: rest
  | [] => []

/-- Consume the fractional part of a number, if present. -/
def parseFrac : List Char → Option (List Char)
  | '.' :: rest =>
    let fs := rest.takeWhile isJsonDigit
    if fs.isEmpty then none else some (rest.drop fs.length)
  | cs => some cs

/-- Consume the digits (with optional sign) of an exponent. -/
def parseExpTail (cs : List Char) : Option (List Char) :=
  let cs1 :=
    match cs with
    | '+' :: r => r
    | '-' :: r => r
    | _ => cs
  let ds := cs1.takeWhile isJsonDigit
  if ds.isEmpty then none else some (cs1.drop ds.length)

/-- Consume the exponent part of a number, if present. -/
def parseExp : List Char → Option (List Char)
  | 'e' :: rest => parseExpTail rest
  | 'E' :: rest => parseExpTail rest
  | cs => some cs

/-- Consume fraction and exponent; their value is discarded (see `Json.num`). -/
def parseFracExp (cs : List Char) : Option (List Char) :=
  match parseFrac cs with
  | none => none
  | some cs2 => parseExp cs2

/-- Read a JSON number from the head of the input. -/
def parseNumber (cs : List Char) : Option (Json × List Char) :=
  let (neg, cs1) :=
    match cs with
    | '-' :: rest => (true, rest)
    | _ => (false, cs)
  let ds := cs1.takeWhile isJsonDigit
  if ds.isEmpty then none
  else
    let n : Int := Int.ofNat (digitsToNat ds)
    let v := if neg then -n else n
    match parseFracExp (cs1.drop ds.length) with
    | none => none
    | some rest => some (Json.num v, rest)

/-- Read the body of a JSON string literal (the opening quote already
consumed), decoding escape sequences; `acc` holds the characters read so
far, reversed.  Raw control characters are rejected, as in Go. -/
def parseStringBody : Nat → List Char → List Char → Option (String × List Char)
  | 0, _, _ => none
  | _ + 1, [], _ => none
  | fuel + 1, c :: rest, acc =>
    if c = '"' then some (String.mk acc.reverse, rest)
    else if c = '\\' then
      match rest with
      | [] => none
      | e :: rest2 =>
        if e = '"' then parseStringBody fuel rest2 ('"' :: acc)
        else if e = '\\' then parseStringBody fuel rest2 ('\\' :: acc)
        else if e = '/' then parseStringBody fuel rest2 ('/' :: acc)
        else if e = 'n' then parseStringBody fuel rest2 ('\n' :: acc)
        else if e = 't' then parseStringBody fuel rest2 ('\t' :: acc)
        else if e = 'r' then parseStringBody fuel rest2 ('\r' :: acc)
        else if e = 'b' then parseStringBody fuel rest2 (Char.ofNat 8 :: acc)
        else if e = 'f' then parseStringBody fuel rest2 (Char.ofNat 12 :: acc)
        else if e = 'u' then
          match rest2 with
          | h1 :: h2 :: h3 :: h4 :: rest3 =>
            match hexVal h1, hexVal h2, hexVal h3, hexVal h4 with
            | some a, some b, some c2, some d =>
              parseStringBody fuel rest3
                (Char.ofNat (((a * 16 + b) * 16 + c2) * 16 + d) :: acc)
            | _, _, _, _ => none
          | _ => none
        else none
    else if c.toNat < 32 then none
    else parseStringBody fuel rest (c :: acc)

mutual

/-- Read one JSON value from the head of the input.  `fuel` bounds the
recursion depth; `parseJson` supplies enough for any input. -/
def parseValue : Nat → List Char → Option (Json × List Char)
  | 0, _ => none
  | fuel + 1, cs =>
    match skipWs cs with
    | [] => none
    | c :: rest =>
      if c = '{' then
        match skipWs rest with
        | '}' :: rest2 => some (Json.obj [], rest2)
        | rest2 => parseMembers fuel rest2 []
      else if c = '[' then
        match skipWs rest with
        | ']' :: rest2 => some (Json.arr [], rest2)
        | rest2 => parseElements fuel rest2 []
      else if c = '"' then
        match parseStringBody (rest.length + 1) rest [] with
        | some (s, rest2) => some (Json.str s, rest2)
        | none => none
      else if c = 't' then
        match rest with
        | 'r' :: 'u' :: 'e' :: rest2 => some (Json.bool true, rest2)
        | _ => none
      else if c = 'f' then
        match rest with
        | 'a' :: 'l' :: 's' :: 'e' :: rest2 => some (Json.bool false, rest2)
        | _ => none
      else if c = 'n' then
        match rest with
        | 'u' :: 'l' :: 'l' :: rest2 => some (Json.null, rest2)
        | _ => none
      else parseNumber (c :: rest)

/-- Read the members of a JSON object, the opening brace and any leading
whitespace already consumed; `acc` holds the members read so far. -/
def parseMembers : Nat → List Char → List (String × Json) →
    Option (Json × List Char)
  | 0, _, _ => none
  | fuel + 1, cs, acc =>
    match skipWs cs with
    | '"' :: rest =>
      match parseStringBody (rest.length + 1) rest [] with
      | none => none
      | some (key, rest2) =>
        match skipWs rest2 with
        | ':' :: rest3 =>
          match parseValue fuel rest3 with
          | none => none
          | some (v, rest4) =>
            match skipWs rest4 with
            | ',' :: rest5 => parseMembers fuel rest5 (acc ++ [(key, v)])
            | '}' :: rest5 => some (Json.obj (acc ++ [(key, v)]), rest5)
            | _ => none
        | _ => none
    | _ => none

/-- Read the elements of a JSON array, the opening bracket already
consumed; `acc` holds the elements read so far. -/
def parseElements : Nat → List Char → List Json → Option (Json × List Char)
  | 0, _, _ => none
  | fuel + 1, cs, acc =>
    match parseValue fuel cs with
    | none => none
    | some (v, rest) =>
      match skipWs rest with
      | ',' :: rest2 => parseElements fuel rest2 (acc ++ [v])
      | ']' :: rest2 => some (Json.arr (acc ++ [v]), rest2)
      | _ => none

end

/-- Parse a whole string as one JSON value.  Like Go's `json.Unmarshal`,
trailing non-whitespace input is an error. -/
def parseJson (s : String) : Option Json :=
  match parseValue (2 * s.length + 2) s.data with
  | some (v, rest) => if skipWs rest = [] then some v else none
  | none => none

/-- Hex digit character for `n < 16` (lower case, as in Go's encoder). -/
def toHexDigit (n : Nat) : Char :=
  if n < 10 then Char.ofNat (48 + n) else Char.ofNat (87 + n)

/-- Escape one character the way Go's `encoding/json` encoder does (with its
default HTML escaping of `<`, `>`, `&`). -/
def escapeChar (c : Char) : List Char :=
  if c = '"' then ['\\', '"']
  else if c = '\\' then ['\\', '\\']
  else if c = '\n' then ['\\', 'n']
  else if c = '\t' then ['\\', 't']
  else if c = '\r' then ['\\', 'r']
  else if c = '<' then ['\\', 'u', '0', '0', '3', 'c']
  else if c = '>' then ['\\', 'u', '0', '0', '3', 'e']
  else if c = '&' then ['\\', 'u', '0', '0', '2', '6']
  else if c.toNat < 32 then
    ['\\', 'u', '0', '0', toHexDigit (c.toNat / 16), toHexDigit (c.toNat % 16)]
  else [c]

/-- Serialize a string as a JSON string literal. -/
def quoteJsonString (s : String) : String :=
  String.mk ('"' :: s.data.foldr (fun c acc => escapeChar c ++ acc) ['"'])

/-- Bytewise-style ordering on strings (codepoint by codepoint), the order
Go's map encoder sorts keys in. -/
def strLeb : List Char → List Char → Bool
  | [], _ => true
  | _ :: _, [] => false
  | a :: as, b :: bs =>
    if a.toNat < b.toNat then true
    else if b.toNat < a.toNat then false
    else strLeb as bs

/-- Insert a pair into a key-sorted list, keeping it sorted. -/
def insertByKey (p : String × String) :
    List (String × String) → List (String × String)
  | [] => [p]
  | q :: rest =>
    if strLeb p.1.data q.1.data then p :: q :: rest else q :: insertByKey p rest

/-- Sort an association list by key (insertion sort). -/
def sortByKey : List (String × String) → List (String × String)
  | [] => []
  | p :: rest => insertByKey p (sortByKey rest)

/-- Model of Go `json.Marshal` on a non-nil `map[string]string`: keys are
sorted, then each pair is emitted as `"k":"v"`. -/
def jsonMarshalPairs (l : List (String × String)) : String :=
  "\x7b" ++
    String.intercalate ","
      ((sortByKey l).map (fun p => quoteJsonString p.1 ++ ":" ++ quoteJsonString p.2)) ++
  "\x7d"

/-- Embedding of `defaultAskTask` (providers.go:90-102): a zero task with
`Type`, `Args` and `Message` filled in.  Note that the Go code does not touch
`Status`. -/
def defaultAskTask (message : String) : Task :=
  let task := { Task.zero with type := StringToNullString "ask" }
  let task := { task with Args := StringToNullString "\x7b\x7d" }
  let task := { task with
    Message := { String := message ++ ". What should I do next?", Valid := true } }
  task

/-! ## The `Call` struct and `unmarshalCall` -/

/-- Modelled from the spec: the `Call` struct is declared in a repository
file outside the provided sources; the spec gives it as
`{tool: string, input: map<string,string>, message: string}` with the
matching JSON field names.  `Input` is `Option`-wrapped so that Go's nil map
(the field absent or `null`, serialized back as `null`) stays distinct from
an empty map (serialized as `{}`). -/
structure Call where
  Tool : String
  Input : Option (List (String × String))
  Message : String
deriving DecidableEq, Repr

/-- The Go zero value of `Call`. -/
def Call.zero : Call := ⟨"", none, ""⟩

/-- Go map write: set `k` to `v`, overwriting an existing binding. -/
def mapSet (m : List (String × String)) (k v : String) :
    List (String × String) :=
  match m with
  | [] => [(k, v)]
  | (k', v') :: rest => if k' = k then (k, v) :: rest else (k', v') :: mapSet rest k v

/-- Decode a JSON object into a `map[string]string`, as Go does: every value
must be a string (`null` leaves the zero value `""`). -/
def decodeStringMapFields : List (String × Json) → List (String × String) →
    Except String (List (String × String))
  | [], m => .ok m
  | (k, v) :: rest, m =>
    match v with
    | .str s => decodeStringMapFields rest (mapSet m k s)
    | .null => decodeStringMapFields rest (mapSet m k "")
    | _ => .error "json: cannot unmarshal value into map[string]string"

/-- Decode the fields of a JSON object into a `Call`, as Go's
`json.Unmarshal` does: fields are processed in order (a later duplicate
overwrites an earlier one), unknown fields are ignored, `null` leaves the
current value, and a type mismatch is an error. -/
def decodeCallFields : List (String × Json) → Call → Except String Call
  | [], c => .ok c
  | (k, v) :: rest, c =>
    if k = "tool" then
      match v with
      | .str s => decodeCallFields rest { c with Tool := s }
      | .null => decodeCallFields rest c
      | _ => .error "json: cannot unmarshal value into field tool of type string"
    else if k = "input" then
      match v with
      | .obj fields =>
        match decodeStringMapFields fields (c.Input.getD []) with
        | .ok m => decodeCallFields rest { c with Input := some m }
        | .error e => .error e
      | .null => decodeCallFields rest c
      | _ => .error "json: cannot unmarshal value into field input of type map"
    else if k = "message" then
      match v with
      | .str s => decodeCallFields rest { c with Message := s }
      | .null => decodeCallFields rest c
      | _ => .error "json: cannot unmarshal value into field message of type string"
    else decodeCallFields rest c

/-- Model of `json.Unmarshal([]byte(input), &c)` for `c : Call`: the text
must parse as a JSON object (or `null`, which leaves the zero value). -/
def decodeCallJson (input : String) : Except String Call :=
  match parseJson input with
  | none => .error "invalid JSON"
  | some (.obj fields) => decodeCallFields fields Call.zero
  | some .null => .ok Call.zero
  | some _ => .error "json: cannot unmarshal value into Go value of type Call"

/-- Embedding of `unmarshalCall` (providers.go:211-228): decode the text into
a `Call`; return it only when decoding succeeded and the `tool` field is
non-empty.  The `log.Printf` calls are effects outside the model. -/
def unmarshalCall (input : String) : Option Call :=
  match decodeCallJson input with
  | .error _ => none
  | .ok c => if c.Tool ≠ "" then some c else none

/-! ## `textToTask` -/

/-- Model of `json.Marshal(c.Input)` for the `map[string]string` input of a
`Call`: a nil map serializes as `null`, anything else as a sorted object. -/
def jsonMarshalInput : Option (List (String × String)) → String
  | none => "null"
  | some l => jsonMarshalPairs l

/-- `json.Marshal` on a `map[string]string` never returns an error in Go;
this `Except` wrapper only mirrors the error signature the source checks. -/
def jsonMarshalInputE (input : Option (List (String × String))) :
    Except String String :=
  .ok (jsonMarshalInput input)

/-- Embedding of `textToTask` (providers.go:164-194).  The Go
`(*database.Task, error)` return type becomes `Except String Task`. -/
def textToTask (text : String) : Except String Task :=
  match unmarshalCall text with
  | none => .error ("can't unmarshalCall " ++ text)
  | some c =>
    let task := { Task.zero with type := StringToNullString c.Tool }
    match jsonMarshalInputE c.Input with
    | .error _ => .ok (defaultAskTask "There was an error running the terminal command")
    | .ok arg =>
      let task := { task with Args := StringToNullString arg }
      let msg := c.Message
      let msg := if msg = "" then arg else msg
      let task := { task with Message := StringToNullString msg }
      let task := { task with Status := StringToNullString "in_progress" }
      .ok task

/-! ## `toolToTask` and its collaborators -/

/-- Modelled from the spec: the Ask tool's argument struct is declared
outside the provided sources; per the spec it carries only the optional
`message` field (JSON name `"message"`). -/
structure AskArgs where
  Message : String
deriving DecidableEq, Repr

/-- The Go zero value of `AskArgs`. -/
def AskArgs.zero : AskArgs := ⟨""⟩

/-- Decode the fields of a JSON object into an `AskArgs`, with Go's
unknown-fields-ignored, last-field-wins and null-is-a-no-op behaviour. -/
def decodeAskArgsFields : List (String × Json) → AskArgs → Except String AskArgs
  | [], a => .ok a
  | (k, v) :: rest, a =>
    if k = "message" then
      match v with
      | .str s => decodeAskArgsFields rest { a with Message := s }
      | .null => decodeAskArgsFields rest a
      | _ => .error "json: cannot unmarshal value into field message of type string"
    else decodeAskArgsFields rest a

/-- Embedding of `extractToolArgs` (providers.go:276-282) at the one type it
is used at, `*AskArgs`: `json.Unmarshal` of the argument text into an
`AskArgs`. -/
def extractToolArgsAsk (functionArgs : String) : Except String AskArgs :=
  match parseJson functionArgs with
  | none => .error "failed to unmarshal args: invalid JSON"
  | some (.obj fields) => decodeAskArgsFields fields AskArgs.zero
  | some .null => .ok AskArgs.zero
  | some _ => .error "failed to unmarshal args: cannot unmarshal into AskArgs"

/-- Model of `json.Marshal(params)` for `params : *AskArgs`: the struct has
the single tagged field `message`, always emitted. -/
def marshalAskArgs (a : AskArgs) : String :=
  "\x7b" ++ quoteJsonString "message" ++ ":" ++ quoteJsonString a.Message ++ "\x7d"

/-- `json.Marshal` on an `AskArgs` never returns an error in Go; this
`Except` wrapper only mirrors the error signature the source checks. -/
def marshalAskArgsE (a : AskArgs) : Except String String :=
  .ok (marshalAskArgs a)

/-- Model of `schema.FunctionCall`. -/
structure FunctionCall where
  Name : String
  Arguments : String
deriving DecidableEq, Repr

/-- Model of `llms.ToolCall`, restricted to the fields `toolToTask` reads
(its constant `Type` field is never read here). -/
structure ToolCall where
  ID : String
  FunctionCall : FunctionCall
deriving DecidableEq, Repr

/-- Model of `llms.ContentChoice`, restricted to the fields `toolToTask`
reads. -/
structure ContentChoice where
  Content : String
  ToolCalls : List ToolCall
deriving DecidableEq, Repr

/-- The distinct failure sites of `toolToTask` (providers.go:230-274),
abstracting the distinct `fmt.Errorf` messages of the source.
`marshalFailure` mirrors the source's check of the `json.Marshal` error,
which cannot actually fire (see `marshalAskArgsE`). -/
inductive ToolToTaskError where
  | noChoices
  | noToolCalls
  | emptyToolName
  | decodeFailure (msg : String)
  | marshalFailure (msg : String)
deriving DecidableEq, Repr

/-- Embedding of `toolToTask` (providers.go:230-274).  The Go
`[]*llms.ContentChoice` argument becomes a list of choices; the
`(*database.Task, error)` return type becomes `Except`. -/
def toolToTask (choices : List ContentChoice) : Except ToolToTaskError Task :=
  match choices with
  | [] => .error .noChoices
  | choice :: _ =>
    match choice.ToolCalls with
    | [] => .error .noToolCalls
    | tool :: _ =>
      let task := { Task.zero with type := StringToNullString tool.FunctionCall.Name }
      if tool.FunctionCall.Name = "" then .error .emptyToolName
      else
        match extractToolArgsAsk tool.FunctionCall.Arguments with
        | .error e => .error (.decodeFailure e)
        | .ok params =>
          match marshalAskArgsE params with
          | .error e => .error (.marshalFailure e)
          | .ok args =>
            let task := { task with Args := StringToNullString args }
            let msg := params.Message
            let msg := if msg = "" then tool.FunctionCall.Arguments else msg
            let task := { task with Message := StringToNullString msg }
            let task := { task with Status := StringToNullString "in_progress" }
            let task := { task with ToolCallID := StringToNullString tool.ID }
            .ok task

/-! ## `ProviderFactory` -/

/-- The provider identifier constant `ProviderOpenAI` (providers.go:19). -/
def ProviderOpenAI : String := "openai"

/-- The provider identifier constant `ProviderOllama` (providers.go:20). -/
def ProviderOllama : String := "ollama"

/-- Modelled from the spec: the concrete providers (`OpenAIProvider`,
`OllamaProvider`) live outside the provided sources; only their identity is
modelled, since `ProviderFactory` merely instantiates the zero-value
provider. -/
inductive Provider where
  | openAI
  | ollama
deriving DecidableEq, Repr

/-- Embedding of `ProviderFactory` (providers.go:79-88): the Go `switch` on
the provider identifier becomes an `if` chain over the same two constants,
with the same `"unknown provider: %s"` error otherwise. -/
def ProviderFactory (provider : String) : Except String Provider :=
  if provider = ProviderOpenAI then .ok Provider.openAI
  else if provider = ProviderOllama then .ok Provider.ollama
  else .error ("unknown provider: " ++ provider)

/-! ## Spec-side definitions

Definitions written after the words of the spec (not after the source), used
to state the claims that compare the translator's output against the spec's
description of it. -/

/-- The turns one task contributes to the translated conversation, as the
amended claim C1 states them: a task of type `"input"` first contributes a
human turn carrying the system prompt; a task with non-empty `toolCallId`
then contributes an assistant tool-invocation turn immediately followed by a
tool-result turn; a task with empty `toolCallId` and type `"ask"` contributes
one plain assistant turn carrying its message; a task matching none of these
contributes no turn. -/
def specTaskTurns (prompt : String) (task : Task) : List MessageContent :=
  (if task.type.String = "input" then
    [⟨ChatMessageTypeHuman, [ContentPart.textPart prompt]⟩]
  else []) ++
  (if task.ToolCallID.String ≠ "" then
    [⟨ChatMessageTypeAI,
      [ContentPart.toolCall task.ToolCallID.String task.type.String
        task.Args.String "function"]⟩,
     ⟨ChatMessageTypeTool,
      [ContentPart.toolCallResponse task.ToolCallID.String task.type.String
        task.Results.String]⟩]
  else []) ++
  (if task.type.String = "ask" ∧ task.ToolCallID.String = "" then
    [⟨ChatMessageTypeAI, [ContentPart.textPart task.Message.String]⟩]
  else [])

/-- Model of `json.Unmarshal` into a fresh `map[string]string`, used to
re-parse a serialized `args` blob (claim C8). -/
def jsonParseStringMap (s : String) : Except String (List (String × String)) :=
  match parseJson s with
  | none => .error "invalid JSON"
  | some (.obj fields) => decodeStringMapFields fields []
  | some .null => .ok []
  | some _ => .error "json: cannot unmarshal value into map[string]string"

/-! ## Helper lemmas -/

/-- One pass of the translator's loop body appends exactly the turns that
`specTaskTurns` describes for the task. -/
theorem tasksToMessagesStep_eq (prompt : String) (init : List MessageContent)
    (task : Task) :
    tasksToMessagesStep prompt init task = init ++ specTaskTurns prompt task := by
  simp only [tasksToMessagesStep, specTaskTurns]
  split_ifs <;> simp

/-- The translated conversation is the system turn followed by the
concatenation, in task order, of each task's turns. -/
theorem tasksToMessages_flatMap (tasks : List Task) (prompt : String) :
    tasksToMessages tasks prompt =
      ⟨ChatMessageTypeSystem, [ContentPart.textPart prompt]⟩ ::
        tasks.flatMap (specTaskTurns prompt) := by
  have key : ∀ (ts : List Task) (init : List MessageContent),
      List.foldl (tasksToMessagesStep prompt) init ts =
        init ++ ts.flatMap (specTaskTurns prompt) := by
    intro ts
    induction ts with
    | nil => intro init; simp
    | cons t ts ih =>
      intro init
      rw [List.foldl_cons, tasksToMessagesStep_eq, ih, List.flatMap_cons,
        List.append_assoc]
  rw [tasksToMessages, key]
  rfl

/-- A serialized string map is never the empty string. -/
theorem jsonMarshalPairs_ne_empty (l : List (String × String)) :
    jsonMarshalPairs l ≠ "" := by
  intro h
  have h2 := congrArg String.length h
  simp [jsonMarshalPairs, String.length_append] at h2
  exact absurd h2.2 (by decide)

/-- The serialization of a `Call` input map is never the empty string. -/
theorem jsonMarshalInput_ne_empty (input : Option (List (String × String))) :
    jsonMarshalInput input ≠ "" := by
  cases input with
  | none => decide
  | some l => exact jsonMarshalPairs_ne_empty l

/-- Decoding Ask arguments from the empty string fails (there is no JSON
value in it), so a successful decode implies a non-empty argument blob. -/
theorem extractToolArgsAsk_empty :
    extractToolArgsAsk "" = .error "failed to unmarshal args: invalid JSON" := rfl

/-! ## Claims -/

/-- C1, counterexample: the claim says a task with empty `toolCallId` and a
type other than `"ask"` yields zero turns, but a task of type `"input"`
yields a human turn: on the single-task history below the conversation is
not just the system turn. -/
theorem C1_counterexample :
    tasksToMessages [{ Task.zero with type := StringToNullString "input" }] "p" ≠
      [⟨ChatMessageTypeSystem, [ContentPart.textPart "p"]⟩] := by decide

/-- C1, amended: in the conversation produced by `tasksToMessages`, each task
contributes, in order: a human turn carrying the system prompt when its type
is `"input"`; then, when its `toolCallId` is non-empty, exactly an assistant
tool-invocation turn immediately followed by a tool-result turn; then, when
its `toolCallId` is empty and its type is `"ask"`, exactly one plain
assistant turn; a task matching none of these contributes zero turns. -/
theorem C1_amended (tasks : List Task) (prompt : String) :
    tasksToMessages tasks prompt =
      ⟨ChatMessageTypeSystem, [ContentPart.textPart prompt]⟩ ::
        tasks.flatMap (specTaskTurns prompt) :=
  tasksToMessages_flatMap tasks prompt

/-- C2, counterexample: `defaultAskTask` does not set `Status`, so the
constructed task's status is the invalid zero value, not `"in_progress"`. -/
theorem C2_counterexample :
    (defaultAskTask "Hello").Status.String ≠ "in_progress" ∧
      (defaultAskTask "Hello").Status.Valid = false := by decide

/-- C2, amended: for every explanation string, `defaultAskTask` returns a
task of type `"ask"`, with args `"{}"`, with message the explanation followed
by `". What should I do next?"`, and with every other field — in particular
`Status` — left at the Go zero value (so the status is not set to
`"in_progress"` by this constructor). -/
theorem C2_amended (message : String) :
    defaultAskTask message =
      { Task.zero with
          type := ⟨"ask", true⟩
          Args := ⟨"\x7b\x7d", true⟩
          Message := ⟨message ++ ". What should I do next?", true⟩ } := rfl

/-- C10: `ProviderFactory` succeeds exactly on the identifiers `"openai"`
and `"ollama"` (returning the corresponding provider) and fails on every
other identifier with the `"unknown provider: <id>"` error; it is a pure
function of its argument. -/
theorem C10_ProviderFactory (provider : String) :
    ((∃ p, ProviderFactory provider = .ok p) ↔
      provider = ProviderOpenAI ∨ provider = ProviderOllama) ∧
    (ProviderFactory "openai" = .ok Provider.openAI) ∧
    (ProviderFactory "ollama" = .ok Provider.ollama) ∧
    (provider ≠ ProviderOpenAI → provider ≠ ProviderOllama →
      ProviderFactory provider = .error ("unknown provider: " ++ provider)) := by
  refine ⟨⟨?_, ?_⟩, by decide, by decide, ?_⟩
  · rintro ⟨p, hp⟩
    by_cases h1 : provider = ProviderOpenAI
    · exact Or.inl h1
    · by_cases h2 : provider = ProviderOllama
      · exact Or.inr h2
      · simp [ProviderFactory, h1, h2] at hp
  · rintro (h | h)
    · exact ⟨Provider.openAI, by rw [h]; decide⟩
    · exact ⟨Provider.ollama, by rw [h]; decide⟩
  · intro h1 h2
    simp [ProviderFactory, h1, h2]

/-- C10, witness: at the concrete identifier `"anthropic"` the factory
fails with the expected error. -/
theorem C10_witness :
    ProviderFactory "anthropic" = .error "unknown provider: anthropic" :=
  (C10_ProviderFactory "anthropic").2.2.2 (by decide) (by decide)

/-- C6: for every task of type `"input"` in the history, the translator
emits a human turn whose content is the system prompt; moreover every human
turn in the output carries the system prompt (never the task's own message
or args). -/
theorem C6_input_turn (tasks : List Task) (prompt : String) :
    (∀ t ∈ tasks, t.type.String = "input" →
      (⟨ChatMessageTypeHuman, [ContentPart.textPart prompt]⟩ : MessageContent) ∈
        tasksToMessages tasks prompt) ∧
    (∀ parts : List ContentPart,
      (⟨ChatMessageTypeHuman, parts⟩ : MessageContent) ∈ tasksToMessages tasks prompt →
      parts = [ContentPart.textPart prompt]) := by
  constructor
  · intro t ht htype
    rw [tasksToMessages_flatMap]
    refine List.mem_cons_of_mem _ (List.mem_flatMap.mpr ⟨t, ht, ?_⟩)
    simp [specTaskTurns, htype]
  · intro parts hmem
    rw [tasksToMessages_flatMap] at hmem
    rcases List.mem_cons.mp hmem with heq | hmem2
    · have hrole := congrArg MessageContent.Role heq
      simp [ChatMessageTypeHuman, ChatMessageTypeSystem] at hrole
    · rcases List.mem_flatMap.mp hmem2 with ⟨t, _, hturn⟩
      simp only [specTaskTurns, List.mem_append] at hturn
      rcases hturn with (h1 | h2) | h3
      · by_cases hc : t.type.String = "input"
        · simp [hc] at h1
          exact h1
        · simp [hc] at h1
      · by_cases hc : t.ToolCallID.String = ""
        · simp [hc] at h2
        · simp [hc, ChatMessageTypeHuman, ChatMessageTypeAI, ChatMessageTypeTool] at h2
      · by_cases hc : t.type.String = "ask" ∧ t.ToolCallID.String = ""
        · simp [hc, ChatMessageTypeHuman, ChatMessageTypeAI] at h3
        · simp [hc] at h3

/-- C6, witness: a concrete `"input"` task with its own different message
still yields the human turn carrying the prompt, and that is the only shape
a human turn takes. -/
theorem C6_witness :
    ((⟨ChatMessageTypeHuman, [ContentPart.textPart "p"]⟩ : MessageContent) ∈
        tasksToMessages
          [{ Task.zero with type := ⟨"input", true⟩, Message := ⟨"other", true⟩ }] "p") ∧
      [ContentPart.textPart "p"] = [ContentPart.textPart "p"] :=
  ⟨(C6_input_turn
      [{ Task.zero with type := ⟨"input", true⟩, Message := ⟨"other", true⟩ }] "p").1
        _ (List.mem_singleton.mpr rfl) rfl,
   (C6_input_turn
      [{ Task.zero with type := ⟨"input", true⟩, Message := ⟨"other", true⟩ }] "p").2
        _ (by decide)⟩

/-- Helper: the success path of `textToTask` in closed form.  When the text
parses into a call, the task carries the call's tool as type, the serialized
input as args, the call's message (or, when empty, the serialized args) as
message, status `"in_progress"`, and all other fields — in particular
`ToolCallID` — at the zero value. -/
theorem textToTask_ok (text : String) (c : Call)
    (h : unmarshalCall text = some c) :
    textToTask text = .ok
      { Task.zero with
          type := StringToNullString c.Tool
          Args := StringToNullString (jsonMarshalInput c.Input)
          Message := StringToNullString
            (if c.Message = "" then jsonMarshalInput c.Input else c.Message)
          Status := StringToNullString "in_progress" } := by
  simp [textToTask, h, jsonMarshalInputE]

/-- C4: for every text whose embedded call parses, `textToTask` returns a
task with type the call's tool, args the JSON serialization of the call's
input map, message the call's message or — when that is empty — the
serialized args, status `"in_progress"`, and `ToolCallID` absent (the zero
value); the serialization branch cannot fail for a string map, so the
ask-fallback branch of the source is never taken on this path. -/
theorem C4_textToTask (text : String) (c : Call)
    (h : unmarshalCall text = some c) :
    textToTask text = .ok
      { Task.zero with
          type := StringToNullString c.Tool
          Args := StringToNullString (jsonMarshalInput c.Input)
          Message := StringToNullString
            (if c.Message = "" then jsonMarshalInput c.Input else c.Message)
          Status := StringToNullString "in_progress" } :=
  textToTask_ok text c h

/-- C4, witness: the embedded-text constructor at a concrete call. -/
theorem C4_witness :
    unmarshalCall
        "\x7b\"tool\":\"terminal\",\"input\":\x7b\"cmd\":\"ls\"\x7d,\"message\":\"run\"\x7d" =
      some ⟨"terminal", some [("cmd", "ls")], "run"⟩ ∧
    textToTask
        "\x7b\"tool\":\"terminal\",\"input\":\x7b\"cmd\":\"ls\"\x7d,\"message\":\"run\"\x7d" =
      .ok
        { Task.zero with
            type := ⟨"terminal", true⟩
            Args := ⟨"\x7b\"cmd\":\"ls\"\x7d", true⟩
            Message := ⟨"run", true⟩
            Status := ⟨"in_progress", true⟩ } :=
  ⟨by decide,
   C4_textToTask _ ⟨"terminal", some [("cmd", "ls")], "run"⟩ (by decide)⟩

/-- C7: `unmarshalCall` returns no call exactly when JSON decoding of the
text fails or the decoded `tool` field is empty; consequently every call it
returns has a non-empty `tool`. -/
theorem C7_unmarshalCall (s : String) :
    (unmarshalCall s = none ↔
      (∃ e, decodeCallJson s = .error e) ∨
        (∃ c, decodeCallJson s = .ok c ∧ c.Tool = "")) ∧
    (∀ c, unmarshalCall s = some c → c.Tool ≠ "") := by
  cases h : decodeCallJson s with
  | error e =>
    constructor
    · simp [unmarshalCall, h]
    · intro c hc
      simp [unmarshalCall, h] at hc
  | ok c =>
    by_cases ht : c.Tool = ""
    · constructor
      · simp [unmarshalCall, h, ht]
      · intro c' hc'
        simp [unmarshalCall, h, ht] at hc'
    · constructor
      · simp [unmarshalCall, h, ht]
      · intro c' hc'
        simp [unmarshalCall, h, ht] at hc'
        rw [← hc']
        exact ht

/-- C7, witness: a concrete text that decodes with a non-empty tool. -/
theorem C7_witness :
    unmarshalCall "\x7b\"tool\":\"terminal\"\x7d" =
        some ⟨"terminal", none, ""⟩ ∧
      (⟨"terminal", none, ""⟩ : Call).Tool ≠ "" :=
  ⟨by decide,
   (C7_unmarshalCall "\x7b\"tool\":\"terminal\"\x7d").2
     ⟨"terminal", none, ""⟩ (by decide)⟩

/-- C8: building a task through the embedded-text path from a call whose
input map is `{"cmd":"ls"}` and then JSON-parsing the task's args field
yields the map `{"cmd":"ls"}` exactly. -/
theorem C8_roundTrip :
    ∃ task,
      textToTask "\x7b\"tool\":\"terminal\",\"input\":\x7b\"cmd\":\"ls\"\x7d\x7d" =
          .ok task ∧
        task.Args.String = "\x7b\"cmd\":\"ls\"\x7d" ∧
        jsonParseStringMap task.Args.String = .ok [("cmd", "ls")] :=
  ⟨{ Task.zero with
      type := ⟨"terminal", true⟩
      Args := ⟨"\x7b\"cmd\":\"ls\"\x7d", true⟩
      Message := ⟨"\x7b\"cmd\":\"ls\"\x7d", true⟩
      Status := ⟨"in_progress", true⟩ },
   by decide, by decide, by decide⟩

/-- C9: every task produced by the three construction paths has a non-empty
message: `defaultAskTask` always appends `". What should I do next?"`, the
embedded-text path falls back to the serialized args (never empty), and the
native tool-call path falls back to the raw argument blob (never empty when
its decode succeeded). -/
theorem C9_message_nonempty :
    (∀ message, (defaultAskTask message).Message.String ≠ "") ∧
    (∀ text task, textToTask text = .ok task → task.Message.String ≠ "") ∧
    (∀ choices task, toolToTask choices = .ok task → task.Message.String ≠ "") := by
  refine ⟨?_, ?_, ?_⟩
  · intro message h
    have hform : (defaultAskTask message).Message.String =
        message ++ ". What should I do next?" := rfl
    rw [hform] at h
    have h2 := congrArg String.length h
    simp [String.length_append] at h2
    exact absurd h2.2 (by decide)
  · intro text task h
    cases hu : unmarshalCall text with
    | none => simp [textToTask, hu] at h
    | some c =>
      rw [textToTask_ok text c hu] at h
      have h2 := Except.ok.inj h
      rw [← h2]
      by_cases hm : c.Message = ""
      · simpa [StringToNullString, hm] using jsonMarshalInput_ne_empty c.Input
      · simp [StringToNullString, hm]
  · intro choices task h
    cases choices with
    | nil => simp [toolToTask] at h
    | cons choice rest =>
      cases htc : choice.ToolCalls with
      | nil => simp [toolToTask, htc] at h
      | cons tool trest =>
        by_cases hn : tool.FunctionCall.Name = ""
        · simp [toolToTask, htc, hn] at h
        · cases hex : extractToolArgsAsk tool.FunctionCall.Arguments with
          | error e => simp [toolToTask, htc, hn, hex] at h
          | ok params =>
            simp [toolToTask, htc, hn, hex, marshalAskArgsE] at h
            rw [← h]
            by_cases hm : params.Message = ""
            · simp only [StringToNullString, hm, if_pos]
              intro hempty
              rw [hempty, extractToolArgsAsk_empty] at hex
              exact Except.noConfusion hex
            · simp [StringToNullString, hm]

/-- C9, witness: concrete tasks from the three paths, each with a non-empty
message. -/
theorem C9_witness :
    (defaultAskTask "Hi").Message.String ≠ "" ∧
    ({ Task.zero with
        type := ⟨"ask", true⟩
        Args := ⟨"null", true⟩
        Message := ⟨"null", true⟩
        Status := ⟨"in_progress", true⟩ } : Task).Message.String ≠ "" ∧
    ({ Task.zero with
        type := ⟨"ask", true⟩
        Args := ⟨"\x7b\"message\":\"\"\x7d", true⟩
        Message := ⟨"\x7b\x7d", true⟩
        Status := ⟨"in_progress", true⟩
        ToolCallID := ⟨"id", true⟩ } : Task).Message.String ≠ "" :=
  ⟨C9_message_nonempty.1 "Hi",
   C9_message_nonempty.2.1 "\x7b\"tool\":\"ask\"\x7d" _ (by decide),
   C9_message_nonempty.2.2 [⟨"", [⟨"id", ⟨"ask", "\x7b\x7d"⟩⟩]⟩] _ (by decide)⟩

/-- C3: `toolToTask` inspects only the first choice's first tool call; it
fails with `noChoices` exactly when the choice list is empty, with
`noToolCalls` exactly when the first choice has no tool calls, with
`emptyToolName` exactly when that tool call's function name is empty, with a
`decodeFailure` exactly when the argument blob does not decode against the
Ask schema, and in every other case (the name non-empty and the blob
decoding) it returns a task. -/
theorem C3_toolToTask (choices : List ContentChoice) :
    (toolToTask choices = .error .noChoices ↔ choices = []) ∧
    (toolToTask choices = .error .noToolCalls ↔
      ∃ choice rest, choices = choice :: rest ∧ choice.ToolCalls = []) ∧
    (toolToTask choices = .error .emptyToolName ↔
      ∃ choice rest tool trest, choices = choice :: rest ∧
        choice.ToolCalls = tool :: trest ∧ tool.FunctionCall.Name = "") ∧
    ((∃ e, toolToTask choices = .error (.decodeFailure e)) ↔
      ∃ choice rest tool trest, choices = choice :: rest ∧
        choice.ToolCalls = tool :: trest ∧ tool.FunctionCall.Name ≠ "" ∧
        ∃ e, extractToolArgsAsk tool.FunctionCall.Arguments = .error e) ∧
    (∀ choice rest tool trest params, choices = choice :: rest →
      choice.ToolCalls = tool :: trest → tool.FunctionCall.Name ≠ "" →
      extractToolArgsAsk tool.FunctionCall.Arguments = .ok params →
      ∃ task, toolToTask choices = .ok task) ∧
    (∀ content content' tool ts rest rest',
      toolToTask (⟨content, tool :: ts⟩ :: rest) =
        toolToTask (⟨content', [tool]⟩ :: rest')) := by
  have firstOnly : ∀ (content content' : String) (tool : ToolCall)
      (ts : List ToolCall) (rest rest' : List ContentChoice),
      toolToTask (⟨content, tool :: ts⟩ :: rest) =
        toolToTask (⟨content', [tool]⟩ :: rest') := by
    intro content content' tool ts rest rest'
    rfl
  cases choices with
  | nil =>
    exact ⟨by simp [toolToTask], by simp [toolToTask], by simp [toolToTask],
      by simp [toolToTask], by intro _ _ _ _ _ h; exact absurd h (by simp),
      firstOnly⟩
  | cons choice rest =>
    cases htc : choice.ToolCalls with
    | nil =>
      refine ⟨by simp [toolToTask, htc], ?_, ?_, ?_, ?_, firstOnly⟩
      · simp [toolToTask, htc]
      · simp [toolToTask, htc]
      · simp [toolToTask, htc]
      · intro choice' rest' tool' trest' params' heq htc' _ _
        rw [List.cons.injEq] at heq
        rw [← heq.1, htc] at htc'
        exact absurd htc' (by simp)
    | cons tool trest =>
      by_cases hn : tool.FunctionCall.Name = ""
      · refine ⟨by simp [toolToTask, htc, hn], ?_, ?_, ?_, ?_, firstOnly⟩
        · simp [toolToTask, htc, hn]
        · simp only [toolToTask, htc, hn]
          simp [htc, hn]
        · simp [toolToTask, htc, hn]
        · intro choice' rest' tool' trest' params' heq htc' hn' _
          rw [List.cons.injEq] at heq
          rw [← heq.1, htc, List.cons.injEq] at htc'
          rw [← htc'.1] at hn'
          exact absurd hn hn'
      · cases hex : extractToolArgsAsk tool.FunctionCall.Arguments with
        | error e =>
          refine ⟨by simp [toolToTask, htc, hn, hex], ?_, ?_, ?_, ?_, firstOnly⟩
          · simp [toolToTask, htc, hn, hex]
          · simp [toolToTask, htc, hn, hex]
          · constructor
            · intro _
              exact ⟨choice, rest, tool, trest, rfl, htc, hn, e, hex⟩
            · intro _
              exact ⟨e, by simp [toolToTask, htc, hn, hex]⟩
          · intro choice' rest' tool' trest' params' heq htc' _ hok
            rw [List.cons.injEq] at heq
            rw [← heq.1, htc, List.cons.injEq] at htc'
            rw [← htc'.1, hex] at hok
            exact absurd hok (by simp)
        | ok params =>
          refine ⟨by simp [toolToTask, htc, hn, hex, marshalAskArgsE],
            ?_, ?_, ?_, ?_, firstOnly⟩
          · simp [toolToTask, htc, hn, hex, marshalAskArgsE]
          · simp [toolToTask, htc, hn, hex, marshalAskArgsE]
          · constructor
            · rintro ⟨e, he⟩
              simp [toolToTask, htc, hn, hex, marshalAskArgsE] at he
            · rintro ⟨choice', rest', tool', trest', heq, htc', _, e, he⟩
              rw [List.cons.injEq] at heq
              rw [← heq.1, htc, List.cons.injEq] at htc'
              rw [← htc'.1, hex] at he
              exact absurd he (by simp)
          · intro choice' rest' tool' trest' params' _ _ _ _
            cases hres : toolToTask (choice :: rest) with
            | ok task => exact ⟨task, rfl⟩
            | error err =>
              simp [toolToTask, htc, hn, hex, marshalAskArgsE] at hres

/-- C3, witness: the empty choice list fails with `noChoices`, and a wellformed
choice yields a task. -/
theorem C3_witness :
    toolToTask [] = .error .noChoices ∧
      ∃ task, toolToTask [⟨"", [⟨"id1", ⟨"terminal", "\x7b\x7d"⟩⟩]⟩] = .ok task :=
  ⟨(C3_toolToTask []).1.mpr rfl,
   (C3_toolToTask [⟨"", [⟨"id1", ⟨"terminal", "\x7b\x7d"⟩⟩]⟩]).2.2.2.2.1
     ⟨"", [⟨"id1", ⟨"terminal", "\x7b\x7d"⟩⟩]⟩ [] ⟨"id1", ⟨"terminal", "\x7b\x7d"⟩⟩ []
     ⟨""⟩ rfl rfl (by decide) (by decide)⟩

/-- C5: every task `toolToTask` returns carries, as its args blob, the
re-serialization (through `marshalAskArgs`) of the argument blob decoded as
the Ask schema — so the blob holds at most a `message` field, and any other
field of the model's arguments is dropped. -/
theorem C5_args_ask_schema (choices : List ContentChoice) (task : Task)
    (h : toolToTask choices = .ok task) :
    ∃ choice rest tool trest params,
      choices = choice :: rest ∧ choice.ToolCalls = tool :: trest ∧
      extractToolArgsAsk tool.FunctionCall.Arguments = .ok params ∧
      task.Args = StringToNullString (marshalAskArgs params) := by
  cases choices with
  | nil => simp [toolToTask] at h
  | cons choice rest =>
    cases htc : choice.ToolCalls with
    | nil => simp [toolToTask, htc] at h
    | cons tool trest =>
      by_cases hn : tool.FunctionCall.Name = ""
      · simp [toolToTask, htc, hn] at h
      · cases hex : extractToolArgsAsk tool.FunctionCall.Arguments with
        | error e => simp [toolToTask, htc, hn, hex] at h
        | ok params =>
          refine ⟨choice, rest, tool, trest, params, rfl, htc, hex, ?_⟩
          simp [toolToTask, htc, hn, hex, marshalAskArgsE] at h
          rw [← h]

/-- C5, witness: a terminal call whose arguments carry a `cmd` field ends up
with args `{"message":""}` — the `cmd` field does not survive. -/
theorem C5_witness :
    toolToTask [⟨"", [⟨"id1", ⟨"terminal", "\x7b\"cmd\":\"ls\"\x7d"⟩⟩]⟩] =
      .ok
        { Task.zero with
            type := ⟨"terminal", true⟩
            Args := ⟨"\x7b\"message\":\"\"\x7d", true⟩
            Message := ⟨"\x7b\"cmd\":\"ls\"\x7d", true⟩
            Status := ⟨"in_progress", true⟩
            ToolCallID := ⟨"id1", true⟩ } ∧
    ∃ choice rest tool trest params,
      ([⟨"", [⟨"id1", ⟨"terminal", "\x7b\"cmd\":\"ls\"\x7d"⟩⟩]⟩] :
          List ContentChoice) = choice :: rest ∧
      choice.ToolCalls = tool :: trest ∧
      extractToolArgsAsk tool.FunctionCall.Arguments = .ok params ∧
      ({ Task.zero with
          type := ⟨"terminal", true⟩
          Args := ⟨"\x7b\"message\":\"\"\x7d", true⟩
          Message := ⟨"\x7b\"cmd\":\"ls\"\x7d", true⟩
          Status := ⟨"in_progress", true⟩
          ToolCallID := ⟨"id1", true⟩ } : Task).Args =
        StringToNullString (marshalAskArgs params) :=
  ⟨by decide,
   C5_args_ask_schema [⟨"", [⟨"id1", ⟨"terminal", "\x7b\"cmd\":\"ls\"\x7d"⟩⟩]⟩]
     _ (by decide)⟩

end Providers
